import Mathlib

/-!
Verification of the semantic-analysis symbol table of the slang HDL front end
(`source/analysis/Symbol.h`). Pure inline code from the header (the `Lazy`
deferred-binding cell, the `Symbol` constructors, `ensureInit`) is embedded
directly; behavior implemented in the out-of-header translation unit
(`ScopeSymbol::lookup`, `doInit`, the `fillMembers` hooks, `getRoot`,
`ParameterSymbol` evaluation) is modelled from the specification, with each
such definition marked in its doc comment.
-/

namespace Slang

/-! ## The Lazy deferred-binding cell (Symbol.h, `Symbol::Lazy`)

The C++ cell holds `mutable std::variant<const TResult*, const TSource*> cache`:
index 0 is a (possibly null) pointer to an already-bound result, index 1 an
unresolved source reference. We model the variant directly; the `evaluate`
binder of each derived cell (`LazyStatement`, `LazyStatementList`,
`LazyConstant`, `LazyInitializer`, `LazyType`) is a function parameter.
Forcing returns, besides the value, the updated cell (mutation made explicit)
and the number of binder evaluations performed by that call. -/

inductive Lazy (Result Source : Type) where
  | resolved : Option Result → Lazy Result Source
  | unresolved : Source → Lazy Result Source
deriving DecidableEq

namespace Lazy

variable {Scope Result Source : Type}

/-- Constructor `Lazy(const TResult* init)` : cache starts at index 0. -/
def init (r : Option Result) : Lazy Result Source := resolved r

/-- Overload `set(const TResult* result)` : store an already-computed result. -/
def setResult (r : Option Result) (_c : Lazy Result Source) : Lazy Result Source :=
  resolved r

/-- Overload `set(const TSource& source)` : store an unresolved source. -/
def setSource (s : Source) (_c : Lazy Result Source) : Lazy Result Source :=
  unresolved s

/-- Whether the cell's tag is the resolved alternative (`cache.index() == 0`). -/
def isResolved : Lazy Result Source → Bool
  | resolved _ => true
  | unresolved _ => false

/-- Method `getOpt(const ScopeSymbol& scope)` : if the cache holds a result,
return it; otherwise evaluate the binder on the stored source against the
given scope, cache the result, and return it. The third component counts how
many times the binder ran during this call. -/
def getOpt (ev : Scope → Source → Result) (scope : Scope) :
    Lazy Result Source → Option Result × Lazy Result Source × Nat
  | resolved r => (r, resolved r, 0)
  | unresolved s =>
      let r := ev scope s
      (some r, resolved (some r), 1)

/-- Method `get(const ScopeSymbol& scope)` : dereference of `getOpt`; defined
for cells whose force yields a value. -/
def get [Inhabited Result] (ev : Scope → Source → Result) (scope : Scope)
    (c : Lazy Result Source) : Result × Lazy Result Source × Nat :=
  let r := getOpt ev scope c
  (r.1.getD default, r.2.1, r.2.2)

end Lazy

/-! ## Lazy member population (`ScopeSymbol::ensureInit` / `doInit`)

The header shows `ensureInit` as a check-then-call on a `membersInitialized`
flag; `doInit`, the fill-hook dispatch and the cycle handling live in the
translation unit, which is not part of the sources here. The population state
machine is therefore modelled from the spec. -/

/-- Modelled from the spec: a scope being populated is marked in progress for
the duration of its fill hook (`doInit` and the per-subtype `fillMembers`
dispatch are not under the available sources); population is a three-state
transition empty / in-progress / populated. -/
inductive PopState where
  | notStarted
  | inProgress
  | populated
deriving DecidableEq

/-- The member-population-relevant state of a `ScopeSymbol`: the population
tag, the installed member list, and the number of elaboration-cycle
diagnostics issued so far. -/
structure ScopeState (Sym : Type) where
  popState : PopState
  memberList : List Sym
  cycleDiags : Nat
deriving DecidableEq

/-- Modelled from the spec: `ensureInit` returns the member list if the scope
is populated; a re-entrant call while population of the same scope is in
flight is detected via the in-progress mark, diagnosed as an elaboration-cycle
error, and unwound with no member list (the inner request is treated as
failed); otherwise the scope is marked in progress, the fill hook runs against
that marked state, and its members are installed atomically. The middle result
component is the member list handed to the caller; the last counts fill-hook
runs performed by this call. -/
def ScopeState.ensureInit {Sym : Type}
    (fill : ScopeState Sym → List Sym × ScopeState Sym) (st : ScopeState Sym) :
    ScopeState Sym × Option (List Sym) × Nat :=
  match st.popState with
  | .populated => (st, some st.memberList, 0)
  | .inProgress => ({ st with cycleDiags := st.cycleDiags + 1 }, none, 0)
  | .notStarted =>
      let mid : ScopeState Sym := { st with popState := .inProgress }
      let filled := fill mid
      ({ filled.2 with popState := .populated, memberList := filled.1 },
        some filled.1, 1)

/-! ## Symbols, scopes and the design arena

`SymbolKind` and `LookupKind` are taken verbatim from Symbol.h. Symbols are
arena-allocated in the C++ code; we model the arena as a list of symbol
records addressed by index, with non-owning references (`parentScope`, import
targets, the wildcard's resolved package) as optional indices — `none` models
a null pointer. -/

/-- The `SymbolKind` enumeration from Symbol.h. -/
inductive SymbolKind where
  | Unknown | Root | DynamicScope | CompilationUnit
  | IntegralType | RealType | StringType | CHandleType | VoidType | EventType
  | EnumType | TypeAlias | Parameter | EnumValue
  | Module | Interface | Modport | ModuleInstance | InterfaceInstance
  | Package | ExplicitImport | ImplicitImport | WildcardImport
  | Program | Attribute | Genvar
  | IfGenerate | LoopGenerate | GenerateBlock
  | ProceduralBlock | SequentialBlock
  | Variable | Instance | FormalArgument | Subroutine
deriving DecidableEq

/-- The `LookupKind` enumeration from Symbol.h. -/
inductive LookupKind where
  | Direct | Local | Scoped | Callable | Definition
deriving DecidableEq

/-- The member containers a `ScopeSymbol` carries once populated: the name map
(unique keys), the ordered member list, and the side list of wildcard imports,
all holding arena indices. -/
structure ScopeData where
  memberMap : List (String × Nat)
  memberList : List Nat
  wildcardImports : List Nat
deriving DecidableEq

/-- One arena slot: a symbol's kind, name, declared location (modelled as a
naturally ordered offset), parent back-reference, plus the fields of the
importing symbol subclasses — the target for explicit/implicit imports and
the resolved package for wildcard imports — and, for scope symbols, the
populated member containers. -/
structure SymData where
  kind : SymbolKind
  name : String
  location : Nat
  parent : Option Nat := none
  importTarget : Option Nat := none
  packageRef : Option Nat := none
  scope : Option ScopeData := none
deriving DecidableEq

/-- Constructor `Symbol(SymbolKind, string_view, SourceLocation)` — the one
that takes no containing symbol: `parentScope` keeps its `nullptr` default. -/
def SymData.mkOrphan (kind : SymbolKind) (name : String) (location : Nat) :
    SymData :=
  { kind := kind, name := name, location := location }

/-- Constructor `Symbol(SymbolKind, const ScopeSymbol&, string_view,
SourceLocation)`: the containing symbol becomes the parent. -/
def SymData.mkContained (kind : SymbolKind) (containingSymbol : Nat)
    (name : String) (location : Nat) : SymData :=
  { kind := kind, name := name, location := location,
    parent := some containingSymbol }

/-- Accessor `Symbol::getParent`: the raw parent back-reference, which is null
for symbols built without a containing symbol. -/
def SymData.getParent (s : SymData) : Option Nat := s.parent

/-- Whether this symbol is one of the import-wrapper kinds that lookup must
never return. -/
def SymData.isImportWrapper (s : SymData) : Bool :=
  s.kind = .ExplicitImport || s.kind = .ImplicitImport

/-- The design arena plus the design-root namespaces consulted by the Scoped
and Definition lookup policies. -/
structure Design where
  syms : List SymData
  packages : List (String × Nat)
  definitions : List (String × Nat)
deriving DecidableEq

/-- Arena dereference by index. -/
def Design.symAt (d : Design) (i : Nat) : Option SymData := d.syms.get? i

/-- Association lookup in a name map. -/
def findByName (m : List (String × Nat)) (name : String) : Option Nat :=
  (m.find? (fun p => p.1 = name)).map (·.2)

/-- The parent link of the symbol at an index. -/
def Design.parentOf (d : Design) (i : Nat) : Option Nat :=
  (d.symAt i).bind SymData.getParent

/-! ## The lookup algorithm (`ScopeSymbol::lookup`)

The body of `lookup` is in the translation unit, not among the available
sources; the five policies are modelled from the spec (section 4.2). The
functions below act on an already-populated `ScopeData` — the real method
first runs `ensureInit`, covered separately above. Diagnostic emission is
modelled by a count of ambiguity diagnostics in the result. -/

/-- Modelled from the spec: the unwrapping rule — if the raw match is an
`ExplicitImportSymbol` or `ImplicitImportSymbol`, lookup returns the target
symbol, never the import wrapper. -/
def Design.unwrapImport (d : Design) (i : Nat) : Option Nat :=
  match d.symAt i with
  | none => none
  | some s => if s.isImportWrapper then s.importTarget else some i

/-- Modelled from the spec: Direct policy — search this scope's member map
only; the lookup location never filters visibility; no parent traversal and
no imports; the unwrapping rule applies to the raw match. -/
def Design.directLookup (d : Design) (sc : ScopeData) (name : String) :
    Option Nat :=
  (findByName sc.memberMap name).bind d.unwrapImport

/-- Modelled from the spec: `WildcardImportSymbol::resolve` — resolve the
wildcard's package, then perform a Direct lookup of the name inside it; a hit
is wrapped in an on-demand implicit import whose imported symbol is the
Direct match, so after the unwrapping rule the lookup yields that match. -/
def Design.wildcardResolve (d : Design) (wi : Nat) (name : String) :
    Option Nat :=
  match d.symAt wi with
  | none => none
  | some w =>
      match w.packageRef with
      | none => none
      | some p =>
          match (d.symAt p).bind SymData.scope with
          | none => none
          | some pscope => d.directLookup pscope name

/-- All wildcard imports of the scope, in import order, that resolve the
name. -/
def Design.wildcardMatches (d : Design) (sc : ScopeData) (name : String) :
    List Nat :=
  sc.wildcardImports.filterMap (fun wi => d.wildcardResolve wi name)

/-- Modelled from the spec: Local-policy visibility in the scope's own
members — a name is visible only if declared at or before the point of use. -/
def Design.localVisible (d : Design) (sc : ScopeData) (name : String)
    (loc : Nat) : Option Nat :=
  match findByName sc.memberMap name with
  | none => none
  | some i =>
      match d.symAt i with
      | none => none
      | some s => if s.location ≤ loc then some i else none

/-- A lookup outcome: the found symbol, if any, and how many ambiguity
diagnostics the lookup reported. -/
structure LookupResult where
  result : Option Nat
  ambiguityDiags : Nat
deriving DecidableEq

/-- Modelled from the spec: Local policy — search the scope's members under
declaration-order visibility; on miss consult the wildcard imports in import
order; a name provided by more than one wildcard import is an ambiguity,
diagnosed exactly once at the point of lookup, not resolved arbitrarily to
one candidate. -/
def Design.localLookup (d : Design) (sc : ScopeData) (name : String)
    (loc : Nat) : LookupResult :=
  match d.localVisible sc name loc with
  | some i => ⟨d.unwrapImport i, 0⟩
  | none =>
      match d.wildcardMatches sc name with
      | [] => ⟨none, 0⟩
      | [t] => ⟨some t, 0⟩
      | _ :: _ :: _ => ⟨none, 1⟩

/-- Modelled from the spec: Scoped policy — perform Local; on a plain miss
search the sibling packages by name for a package symbol. -/
def Design.scopedLookup (d : Design) (sc : ScopeData) (name : String)
    (loc : Nat) : LookupResult :=
  match d.localLookup sc name loc with
  | ⟨some i, n⟩ => ⟨some i, n⟩
  | ⟨none, n⟩ =>
      if n ≠ 0 then ⟨none, n⟩
      else
        ⟨(findByName d.packages name).bind (fun i =>
          match d.symAt i with
          | some s => if s.kind = .Package then some i else none
          | none => none), 0⟩

/-- Whether the symbol at an index is subroutine-shaped. -/
def Design.isSubroutineAt (d : Design) (i : Nat) : Bool :=
  match d.symAt i with
  | some s => s.kind = .Subroutine
  | none => false

/-- Whether the symbol at an index is a module, interface, or program
definition. -/
def Design.isDefinitionAt (d : Design) (i : Nat) : Bool :=
  match d.symAt i with
  | some s => s.kind = .Module || s.kind = .Interface || s.kind = .Program
  | none => false

/-- Modelled from the spec: Callable policy — like Local, but only
subroutine-shaped symbols (or imports unwrapping to one) satisfy the match. -/
def Design.callableLookup (d : Design) (sc : ScopeData) (name : String)
    (loc : Nat) : LookupResult :=
  match d.localLookup sc name loc with
  | ⟨some i, n⟩ => if d.isSubroutineAt i then ⟨some i, n⟩ else ⟨none, n⟩
  | ⟨none, n⟩ => ⟨none, n⟩

/-- Modelled from the spec: Definition policy — like Callable but restricted
to module/interface/program definitions, and permitted to search outward to
the design-root definition namespace. -/
def Design.definitionLookup (d : Design) (sc : ScopeData) (name : String)
    (loc : Nat) : LookupResult :=
  match d.localLookup sc name loc with
  | ⟨some i, n⟩ => if d.isDefinitionAt i then ⟨some i, n⟩ else ⟨none, n⟩
  | ⟨none, n⟩ =>
      if n ≠ 0 then ⟨none, n⟩
      else
        ⟨(findByName d.definitions name).bind (fun i =>
          if d.isDefinitionAt i then some i else none), 0⟩

/-- Modelled from the spec: `ScopeSymbol::lookup` dispatching on the lookup
kind (acting on the populated member containers). -/
def Design.lookup (d : Design) (sc : ScopeData) (name : String) (loc : Nat) :
    LookupKind → LookupResult
  | .Direct => ⟨d.directLookup sc name, 0⟩
  | .Local => d.localLookup sc name loc
  | .Scoped => d.scopedLookup sc name loc
  | .Callable => d.callableLookup sc name loc
  | .Definition => d.definitionLookup sc name loc

/-! ## The member builder (`ScopeSymbol::MemberBuilder`) -/

/-- Modelled from the spec: `MemberBuilder::add` — wildcard imports are not
members at all, only a side list consulted on lookup miss; every other symbol
goes into the name map and the ordered member list. -/
def MemberBuilder.add (d : Design) (b : ScopeData) (i : Nat) : ScopeData :=
  match d.symAt i with
  | none => b
  | some s =>
      if s.kind = .WildcardImport then
        { b with wildcardImports := b.wildcardImports ++ [i] }
      else
        { memberMap := b.memberMap ++ [(s.name, i)],
          memberList := b.memberList ++ [i],
          wildcardImports := b.wildcardImports }

/-- Building a scope's containers from a list of child symbols. -/
def MemberBuilder.build (d : Design) (children : List Nat) : ScopeData :=
  children.foldl (MemberBuilder.add d) ⟨[], [], []⟩

/-- Whether a symbol's stored import target dereferences to a symbol that is
not itself an import wrapper. -/
def Design.importTargetOk (d : Design) (s : SymData) : Bool :=
  match s.importTarget with
  | none => true
  | some t =>
      match d.symAt t with
      | some ts => !ts.isImportWrapper
      | none => false

/-- Design well-formedness for import indirections: every stored import
target dereferences to a symbol that is not itself an import wrapper. -/
def Design.wfImports (d : Design) : Bool :=
  d.syms.all d.importTargetOk

/-! ## Parameter evaluation (`ParameterSymbol`)

The evaluation logic is in the translation unit; modelled from the spec
(section 4.5 and the data-model invariant on `isLocal`). Scopes, expressions,
type syntaxes, and the evaluated type/value domains are abstract; the binder
and the constant evaluator reachable through the scope are function
parameters. -/

/-- The fields of `ParameterSymbol` relevant to override/default resolution:
the localparam and port flags, the optional declared type syntax, the optional
default initializer, the optional override expression supplied at
instantiation, the instance scope the override is evaluated against, and the
declaring scope. -/
structure ParamSym (Scope Expr TySyn : Type) where
  name : String
  location : Nat
  isLocal : Bool
  isPort : Bool
  typeSyntax : Option TySyn
  defaultInitializer : Option Expr
  assignedValue : Option Expr
  instanceScope : Scope
  declScope : Scope

/-- Modelled from the spec: the expression a parameter query evaluates, with
the scope it is evaluated against — the assigned override against the
instance scope when present, except that a localparam is never externally
overridable and always uses its own default against its declaring scope. -/
def ParamSym.chosen {Scope Expr TySyn : Type} (p : ParamSym Scope Expr TySyn) :
    Option (Scope × Expr) :=
  match p.isLocal, p.assignedValue with
  | false, some e => some (p.instanceScope, e)
  | _, _ => p.defaultInitializer.map (fun e => (p.declScope, e))

/-- Modelled from the spec: `ParameterSymbol::value` — evaluate the chosen
expression in its scope (absent if the parameter has neither an override nor a
default). -/
def ParamSym.value {Scope Expr TySyn CVal : Type}
    (evalConst : Scope → Expr → CVal) (p : ParamSym Scope Expr TySyn) :
    Option CVal :=
  p.chosen.map (fun se => evalConst se.1 se.2)

/-- Modelled from the spec: `ParameterSymbol::type` — the declared type when
type syntax is present, otherwise the type determined by the chosen
expression in its scope. -/
def ParamSym.type {Scope Expr TySyn Ty : Type}
    (resolveType : Scope → TySyn → Ty) (typeOf : Scope → Expr → Ty)
    (p : ParamSym Scope Expr TySyn) : Option Ty :=
  match p.typeSyntax with
  | some ts => some (resolveType p.declScope ts)
  | none => p.chosen.map (fun se => typeOf se.1 se.2)

/-- Modelled from the spec: `ParameterSymbol::defaultValue` — the default-only
evaluation against the declaring scope, ignoring any override. -/
def ParamSym.defaultValue {Scope Expr TySyn CVal : Type}
    (evalConst : Scope → Expr → CVal) (p : ParamSym Scope Expr TySyn) :
    Option CVal :=
  p.defaultInitializer.map (evalConst p.declScope)

/-! ## Generate elaboration (`IfGenerateSymbol` / `LoopGenerateSymbol`)

The `fillMembers` hooks are in the translation unit; modelled from the spec
(section 4.6). Constant evaluation results carry the invalid sentinel. -/

/-- A constant value as seen by generate elaboration: an integer, or the
invalid sentinel produced by failed constant evaluation. -/
inductive ConstantValue where
  | invalid
  | val (i : Int)
deriving DecidableEq

/-- A synthesized `GenerateBlockSymbol`: its name, the syntax node (by id) of
the body it wraps, and the implicit loop parameter value, if any. -/
structure GenerateBlock where
  name : String
  body : Nat
  implicitParam : Option Int := none
deriving DecidableEq

/-- Modelled from the spec: `IfGenerateSymbol::fillMembers` — evaluate the
guard; if non-zero and non-invalid synthesize exactly one block wrapping the
taken branch; if zero, one block for the else-branch when present, otherwise
no children; an invalid guard degrades to no children. -/
def ifGenerateMembers (guard : ConstantValue) (thenBody : Nat)
    (elseBody : Option Nat) (blockName : String) : List GenerateBlock :=
  match guard with
  | .invalid => []
  | .val c =>
      if c ≠ 0 then [{ name := blockName, body := thenBody }]
      else
        match elseBody with
        | some e => [{ name := blockName, body := e }]
        | none => []

/-- Modelled from the spec: the loop-generate iteration — repeatedly evaluate
the condition on the current loop value; each true iteration contributes the
current value, then the step expression advances it; iteration stops when the
condition is false or invalid, when the step goes invalid, or at the fuel
bound (the maximum iteration count guarding against pathological loops). -/
def loopGenerateValues (cond stepf : Int → ConstantValue) :
    Nat → Int → List Int
  | 0, _ => []
  | fuel + 1, v =>
      match cond v with
      | .invalid => []
      | .val c =>
          if c = 0 then []
          else
            v :: (match stepf v with
                  | .invalid => []
                  | .val v2 => loopGenerateValues cond stepf fuel v2)

/-- Modelled from the spec: `LoopGenerateSymbol::fillMembers` — evaluate the
initial value, run the bounded iteration, and synthesize one block per
iteration carrying the implicit parameter bound to that iteration's loop
value, named deterministically by ordinal position. -/
def loopGenerateMembers (maxSteps : Nat) (initial : ConstantValue)
    (cond stepf : Int → ConstantValue) (bodySyntax : Nat) :
    List GenerateBlock :=
  match initial with
  | .invalid => []
  | .val v0 =>
      (loopGenerateValues cond stepf maxSteps v0).enum.map
        (fun nv => { name := "genblk" ++ Nat.repr (nv.1 + 1),
                     body := bodySyntax, implicitParam := some nv.2 })

/-! ## Root traversal (`Symbol::getRoot`) -/

/-- Modelled from the spec: `Symbol::getRoot` walks parent links to the fixed
point, the self-parented root. Fuel bounds the walk so the function is total
on arbitrary designs; under the claims' hypotheses (a parent chain reaching
the unique self-parented root) the fuel suffices. A null parent ends the walk
with no root. -/
def getRootAux (d : Design) : Nat → Nat → Option Nat
  | 0, _ => none
  | fuel + 1, i =>
      match d.parentOf i with
      | none => none
      | some p => if p = i then some i else getRootAux d fuel p

/-- Wrapper for the fuelled root walk. -/
def Design.getRoot (d : Design) (fuel : Nat) (i : Nat) : Option Nat :=
  getRootAux d fuel i

/-- The ancestor n parent links up from a symbol, when the chain is
unbroken. -/
def Design.ancestorAt (d : Design) : Nat → Nat → Option Nat
  | 0, i => some i
  | n + 1, i => (d.parentOf i).bind (d.ancestorAt n)

/-! ## Concrete example designs used to exercise the machinery -/

/-- A design with a single variable symbol `x` declared at location 5. -/
def exDesign1 : Design := ⟨[SymData.mkOrphan .Variable "x" 5], [], []⟩

/-- A populated scope whose sole member is that variable. -/
def exScope1 : ScopeData := ⟨[("x", 0)], [0], []⟩

/-- A design with two packages `PA` (holding variable `x` at index 1) and `PB`
(holding variable `x` at index 3), and two wildcard imports (indices 4 and 5)
resolving those packages. -/
def exDesign2 : Design :=
  ⟨[{ kind := .Package, name := "PA", location := 0,
      scope := some ⟨[("x", 1)], [1], []⟩ },
    SymData.mkOrphan .Variable "x" 0,
    { kind := .Package, name := "PB", location := 0,
      scope := some ⟨[("x", 3)], [3], []⟩ },
    SymData.mkOrphan .Variable "x" 0,
    { kind := .WildcardImport, name := "", location := 0, packageRef := some 0 },
    { kind := .WildcardImport, name := "", location := 0, packageRef := some 2 }],
   [("PA", 0), ("PB", 2)], []⟩

/-- A populated scope with no own members and both wildcard imports. -/
def exScope2 : ScopeData := ⟨[], [], [4, 5]⟩

/-- A design with a self-parented root at index 0 and one module child at
index 1. -/
def exDesign3 : Design :=
  ⟨[{ kind := .Root, name := "$root", location := 0, parent := some 0 },
    SymData.mkContained .Module 0 "m" 0], [], []⟩

end Slang

namespace SlangProofs

open Slang

/-- C1: forcing an unresolved lazy cell twice against the same scope with no
intervening set evaluates the binder exactly once in total; both calls return
the identical result, namely the binder applied to the scope and source. -/
theorem lazy_memoizes_single_evaluation
    {Scope Result Source : Type} (ev : Scope → Source → Result)
    (scope : Scope) (s : Source) :
    (Lazy.getOpt ev scope (Lazy.unresolved s)).2.2 +
      (Lazy.getOpt ev scope (Lazy.getOpt ev scope
        (Lazy.unresolved s)).2.1).2.2 = 1 ∧
    (Lazy.getOpt ev scope (Lazy.unresolved s)).1 =
      (Lazy.getOpt ev scope (Lazy.getOpt ev scope
        (Lazy.unresolved s)).2.1).1 ∧
    (Lazy.getOpt ev scope (Lazy.unresolved s)).1 =
      some (ev scope s) := by
  refine ⟨rfl, ?_, rfl⟩
  simp [Lazy.getOpt]

/-- C2 counterexample: the claim that no sequence of public operations can
revert a resolved cell to the unresolved tag is false on the code: the
`set(const TSource&)` overload unconditionally overwrites the cache with the
source alternative. Concretely, a cell resolved to 5, after `setSource 7`, is
tagged unresolved, and the next force re-runs the binder (one evaluation). -/
theorem lazy_set_source_reverts_resolved_tag :
    (Lazy.setSource 7 (Lazy.resolved (some 5) : Lazy Nat Nat)).isResolved = false ∧
    (Lazy.getOpt (fun (_ : Unit) (s : Nat) => s + 1) ()
      (Lazy.setSource 7 (Lazy.resolved (some 5) : Lazy Nat Nat))).2.2 = 1 := by
  exact ⟨rfl, rfl⟩

/-- C2 amended: once a lazy cell is tagged resolved, it stays resolved under
`get`, `getOpt`, and the result overload of `set`; only the source overload of
`set` (unsupported after resolution by the documented contract) reverts the
tag to unresolved. -/
theorem lazy_resolution_monotonic_without_source_set
    {Scope Result Source : Type} [Inhabited Result]
    (ev : Scope → Source → Result) (scope : Scope)
    (c : Lazy Result Source) (h : c.isResolved = true) (r : Option Result) :
    (Lazy.getOpt ev scope c).2.1.isResolved = true ∧
    (Lazy.get ev scope c).2.1.isResolved = true ∧
    (Lazy.setResult r c).isResolved = true ∧
    (Lazy.getOpt ev scope c).2.2 = 0 := by
  cases c with
  | resolved x => exact ⟨rfl, rfl, rfl, rfl⟩
  | unresolved s => simp [Lazy.isResolved] at h

/-- Witness for the amended C2 theorem at the concrete resolved cell holding 5. -/
theorem lazy_resolution_monotonic_without_source_set_witness :
    ((Lazy.resolved (some 5) : Lazy Nat Nat).isResolved = true) ∧
    (Lazy.getOpt (fun (_ : Unit) (s : Nat) => s + 1) ()
      (Lazy.resolved (some 5) : Lazy Nat Nat)).2.1.isResolved = true :=
  ⟨by decide,
   (lazy_resolution_monotonic_without_source_set
     (fun (_ : Unit) (s : Nat) => s + 1) ()
     (Lazy.resolved (some 5)) (by decide) none).1⟩

/-- C3: a re-entrant `ensureInit` on a scope whose population is in flight
(its fill hook sees the in-progress mark) is detected: it does not run the
fill hook (zero hook runs), terminates, returns no half-built member list, and
reports exactly one elaboration-cycle diagnostic, leaving the rest of the
state untouched. -/
theorem ensureInit_reentrant_detected_no_refill
    {Sym : Type} (fill : ScopeState Sym → List Sym × ScopeState Sym)
    (st : ScopeState Sym) (h : st.popState = .inProgress) :
    ScopeState.ensureInit fill st =
      ({ st with cycleDiags := st.cycleDiags + 1 }, none, 0) := by
  unfold ScopeState.ensureInit
  rw [h]

/-- Witness for C3 at a concrete in-flight scope state over `Nat` symbols. -/
theorem ensureInit_reentrant_detected_no_refill_witness :
    ScopeState.ensureInit (fun st => ([], st))
        (⟨.inProgress, [7], 0⟩ : ScopeState Nat) =
      ((⟨.inProgress, [7], 1⟩ : ScopeState Nat), none, 0) :=
  ensureInit_reentrant_detected_no_refill (fun st => ([], st)) ⟨.inProgress, [7], 0⟩ rfl

/-! Helper lemmas about the lookup machinery, shared by the lookup claims. -/

theorem symAt_mem {d : Design} {j : Nat} {s : SymData} (h : d.symAt j = some s) :
    s ∈ d.syms := by
  unfold Design.symAt at h
  exact List.get?_mem h

theorem unwrap_no_wrapper {d : Design} {j i : Nat} {s : SymData}
    (hwf : d.wfImports = true) (h : d.unwrapImport j = some i)
    (hs : d.symAt i = some s) : s.isImportWrapper = false := by
  unfold Design.unwrapImport at h
  cases hj : d.symAt j with
  | none => rw [hj] at h; exact absurd h (by simp)
  | some sj =>
      rw [hj] at h
      cases hw : sj.isImportWrapper with
      | true =>
          simp only [hw, if_true] at h
          have hall := (List.all_eq_true.mp hwf) sj (symAt_mem hj)
          unfold Design.importTargetOk at hall
          rw [h] at hall
          simp [hs] at hall
          exact hall
      | false =>
          simp only [hw, Bool.false_eq_true, if_false, Option.some.injEq] at h
          subst h
          rw [hj] at hs
          cases Option.some.inj hs
          exact hw

theorem directLookup_no_wrapper {d : Design} {sc : ScopeData} {name : String}
    {i : Nat} {s : SymData} (hwf : d.wfImports = true)
    (h : d.directLookup sc name = some i) (hs : d.symAt i = some s) :
    s.isImportWrapper = false := by
  unfold Design.directLookup at h
  obtain ⟨j, _, hu⟩ := Option.bind_eq_some.mp h
  exact unwrap_no_wrapper hwf hu hs

theorem wildcardResolve_no_wrapper {d : Design} {wi i : Nat} {name : String}
    {s : SymData} (hwf : d.wfImports = true)
    (h : d.wildcardResolve wi name = some i) (hs : d.symAt i = some s) :
    s.isImportWrapper = false := by
  unfold Design.wildcardResolve at h
  split at h
  · exact absurd h (by simp)
  · split at h
    · exact absurd h (by simp)
    · split at h
      · exact absurd h (by simp)
      · exact directLookup_no_wrapper hwf h hs

theorem localLookup_no_wrapper {d : Design} {sc : ScopeData} {name : String}
    {loc i : Nat} {s : SymData} (hwf : d.wfImports = true)
    (h : (d.localLookup sc name loc).result = some i)
    (hs : d.symAt i = some s) : s.isImportWrapper = false := by
  unfold Design.localLookup at h
  split at h
  · exact unwrap_no_wrapper hwf h hs
  · split at h
    · exact absurd h (by simp)
    · next t heq =>
        simp only [Option.some.injEq] at h
        subst h
        have ht : t ∈ d.wildcardMatches sc name := by
          rw [heq]; exact List.mem_singleton.mpr rfl
        obtain ⟨wi, _, hres⟩ :=
          List.mem_filterMap.mp (by simpa [Design.wildcardMatches] using ht)
        exact wildcardResolve_no_wrapper hwf hres hs
    · exact absurd h (by simp)

theorem isImportWrapper_false_of_ne {s : SymData}
    (h1 : s.kind ≠ .ExplicitImport) (h2 : s.kind ≠ .ImplicitImport) :
    s.isImportWrapper = false := by
  unfold SymData.isImportWrapper
  simp [h1, h2]

theorem isSubroutineAt_kind {d : Design} {i : Nat} {s : SymData}
    (h : d.isSubroutineAt i = true) (hs : d.symAt i = some s) :
    s.kind = .Subroutine := by
  unfold Design.isSubroutineAt at h
  rw [hs] at h
  simpa using h

theorem isDefinitionAt_kind {d : Design} {i : Nat} {s : SymData}
    (h : d.isDefinitionAt i = true) (hs : d.symAt i = some s) :
    s.kind = .Module ∨ s.kind = .Interface ∨ s.kind = .Program := by
  unfold Design.isDefinitionAt at h
  rw [hs] at h
  simpa [or_assoc] using h

theorem localLookup_eq_no_wrapper {d : Design} {sc : ScopeData} {name : String}
    {loc i n : Nat} {s : SymData} (hwf : d.wfImports = true)
    (h : d.localLookup sc name loc = ⟨some i, n⟩)
    (hs : d.symAt i = some s) : s.isImportWrapper = false := by
  have h2 : (d.localLookup sc name loc).result = some i := by rw [h]
  exact localLookup_no_wrapper hwf h2 hs

theorem lookup_result_no_wrapper {d : Design} {sc : ScopeData} {name : String}
    {loc : Nat} {k : LookupKind} {i : Nat} {s : SymData}
    (hwf : d.wfImports = true)
    (h : (d.lookup sc name loc k).result = some i)
    (hs : d.symAt i = some s) : s.isImportWrapper = false := by
  cases k with
  | Direct => exact directLookup_no_wrapper hwf h hs
  | Local => exact localLookup_no_wrapper hwf h hs
  | Scoped =>
      have h2 : (d.scopedLookup sc name loc).result = some i := h
      unfold Design.scopedLookup at h2
      split at h2
      · next j n heq =>
          have h3 : some j = some i := h2
          cases Option.some.inj h3
          exact localLookup_eq_no_wrapper hwf heq hs
      · next n heq =>
          split at h2
          · exact absurd h2 (by simp)
          · obtain ⟨j, _, hj⟩ := Option.bind_eq_some.mp h2
            split at hj
            · next s2 hs2 =>
                split at hj
                · next hkind =>
                    cases Option.some.inj hj
                    rw [hs2] at hs
                    cases Option.some.inj hs
                    exact isImportWrapper_false_of_ne
                      (by rw [hkind]; intro hc; cases hc)
                      (by rw [hkind]; intro hc; cases hc)
                · exact absurd hj (by simp)
            · exact absurd hj (by simp)
  | Callable =>
      have h2 : (d.callableLookup sc name loc).result = some i := h
      unfold Design.callableLookup at h2
      split at h2
      · next j n heq =>
          split at h2
          · next hsub =>
              have h3 : some j = some i := h2
              cases Option.some.inj h3
              have hk := isSubroutineAt_kind hsub hs
              exact isImportWrapper_false_of_ne
                (by rw [hk]; intro hc; cases hc)
                (by rw [hk]; intro hc; cases hc)
          · exact absurd h2 (by simp)
      · exact absurd h2 (by simp)
  | Definition =>
      have h2 : (d.definitionLookup sc name loc).result = some i := h
      unfold Design.definitionLookup at h2
      split at h2
      · next j n heq =>
          split at h2
          · next hdef =>
              have h3 : some j = some i := h2
              cases Option.some.inj h3
              rcases isDefinitionAt_kind hdef hs with hk | hk | hk <;>
                exact isImportWrapper_false_of_ne
                  (by rw [hk]; intro hc; cases hc)
                  (by rw [hk]; intro hc; cases hc)
          · exact absurd h2 (by simp)
      · next n heq =>
          split at h2
          · exact absurd h2 (by simp)
          · obtain ⟨j, _, hj⟩ := Option.bind_eq_some.mp h2
            split at hj
            · next hdef =>
                cases Option.some.inj hj
                rcases isDefinitionAt_kind hdef hs with hk | hk | hk <;>
                  exact isImportWrapper_false_of_ne
                    (by rw [hk]; intro hc; cases hc)
                    (by rw [hk]; intro hc; cases hc)
            · exact absurd hj (by simp)

theorem build_memberMap_no_wildcard_aux (d : Design) :
    ∀ (children : List Nat) (b : ScopeData),
      (∀ p ∈ b.memberMap, ∀ s, d.symAt p.2 = some s → s.kind ≠ .WildcardImport) →
      ∀ p ∈ (children.foldl (MemberBuilder.add d) b).memberMap, ∀ s,
        d.symAt p.2 = some s → s.kind ≠ .WildcardImport := by
  intro children
  induction children with
  | nil => intro b hb; simpa using hb
  | cons c cs ih =>
      intro b hb
      simp only [List.foldl_cons]
      apply ih
      intro p hp s hs
      unfold MemberBuilder.add at hp
      split at hp
      · exact hb p hp s hs
      · next s2 hs2 =>
          split at hp
          · exact hb p hp s hs
          · next hkind =>
              have hp2 : p ∈ b.memberMap ++ [(s2.name, c)] := hp
              rcases List.mem_append.mp hp2 with h1 | h1
              · exact hb p h1 s hs
              · have hpe : p = (s2.name, c) := by simpa using h1
                subst hpe
                rw [hs2] at hs
                cases Option.some.inj hs
                exact hkind

/-- C4: in a populated scope whose member map maps a name to a declared
(non-import) symbol, a Direct lookup finds that symbol at every lookup
location; a Local lookup in a scope without wildcard imports misses it at any
location strictly before its declaration and finds it at any location at or
after the declaration. -/
theorem direct_ignores_location_local_is_order_sensitive
    (d : Design) (sc : ScopeData) (name : String) (i : Nat) (s : SymData)
    (hfind : findByName sc.memberMap name = some i)
    (hsym : d.symAt i = some s)
    (himp : s.isImportWrapper = false)
    (hwild : sc.wildcardImports = []) :
    (∀ loc, (d.lookup sc name loc .Direct).result = some i) ∧
    (∀ loc, loc < s.location → (d.lookup sc name loc .Local).result = none) ∧
    (∀ loc, s.location ≤ loc → (d.lookup sc name loc .Local).result = some i) := by
  refine ⟨?_, ?_, ?_⟩
  · intro loc
    show (d.directLookup sc name) = some i
    unfold Design.directLookup Design.unwrapImport
    rw [hfind]
    simp [hsym, himp]
  · intro loc hlt
    show (d.localLookup sc name loc).result = none
    unfold Design.localLookup Design.localVisible
    rw [hfind]
    simp [hsym, Nat.not_le.mpr hlt, Design.wildcardMatches, hwild]
  · intro loc hle
    show (d.localLookup sc name loc).result = some i
    unfold Design.localLookup Design.localVisible
    rw [hfind]
    simp [hsym, hle, Design.unwrapImport, himp]

/-- Witness for C4 against a scope declaring `x` at location 5: Direct finds
it at location 0; Local misses it at location 3 and finds it at location 5. -/
theorem direct_ignores_location_local_is_order_sensitive_witness :
    ((exDesign1.lookup exScope1 "x" 0 .Direct).result = some 0) ∧
    ((exDesign1.lookup exScope1 "x" 3 .Local).result = none) ∧
    ((exDesign1.lookup exScope1 "x" 5 .Local).result = some 0) := by
  have h := direct_ignores_location_local_is_order_sensitive exDesign1 exScope1
    "x" 0 (SymData.mkOrphan .Variable "x" 5) rfl rfl rfl rfl
  exact ⟨h.1 0, h.2.1 3 (by decide), h.2.2 5 (by decide)⟩

/-- C7: a Local lookup that misses the scope's own members while at least two
wildcard imports (in import order) resolve the searched name reports the
ambiguity diagnostic exactly once and does not resolve arbitrarily to either
candidate. -/
theorem wildcard_ambiguity_diagnosed_once
    (d : Design) (sc : ScopeData) (name : String) (loc : Nat)
    (t u : Nat) (rest : List Nat)
    (hmiss : d.localVisible sc name loc = none)
    (hmatches : d.wildcardMatches sc name = t :: u :: rest) :
    d.localLookup sc name loc = ⟨none, 1⟩ := by
  unfold Design.localLookup
  rw [hmiss, hmatches]

/-- Witness for C7: two wildcard imports of distinct packages both exposing
`x`; the Local lookup returns nothing and one ambiguity diagnostic. -/
theorem wildcard_ambiguity_diagnosed_once_witness :
    Design.localLookup exDesign2 exScope2 "x" 0 = ⟨none, 1⟩ :=
  wildcard_ambiguity_diagnosed_once exDesign2 exScope2 "x" 0 1 3 [] rfl rfl

/-- C8: in a design whose import indirections are well formed, no lookup of
any name, location, and lookup kind ever returns an `ExplicitImport` or
`ImplicitImport` symbol (raw import matches are unwrapped to their targets);
and member maps built by the member builder never contain a
`WildcardImportSymbol` (those go only to the side list). -/
theorem lookup_never_returns_import_wrapper (d : Design)
    (hwf : d.wfImports = true) :
    (∀ sc name loc k i s, (d.lookup sc name loc k).result = some i →
        d.symAt i = some s → s.isImportWrapper = false) ∧
    (∀ children p s, p ∈ (MemberBuilder.build d children).memberMap →
        d.symAt p.2 = some s → s.kind ≠ .WildcardImport) := by
  constructor
  · intro sc name loc k i s h hs
    exact lookup_result_no_wrapper hwf h hs
  · intro children p s hp hs
    exact build_memberMap_no_wildcard_aux d children ⟨[], [], []⟩
      (by intro p hp; simp at hp) p hp s hs

/-- Witness for C8: in the two-package design, a Direct lookup of `x` inside
package `PA` returns the variable symbol, which is not an import wrapper; and
building members from a wildcard import plus that variable leaves the member
map free of wildcard imports. -/
theorem lookup_never_returns_import_wrapper_witness :
    (SymData.mkOrphan .Variable "x" 0).isImportWrapper = false ∧
    (SymData.mkOrphan .Variable "x" 0).kind ≠ .WildcardImport :=
  ⟨(lookup_never_returns_import_wrapper exDesign2 (by decide)).1
      ⟨[("x", 1)], [1], []⟩ "x" 0 .Direct 1 (SymData.mkOrphan .Variable "x" 0)
      (by decide) (by decide),
   (lookup_never_returns_import_wrapper exDesign2 (by decide)).2
      [4, 1] ("x", 1) (SymData.mkOrphan .Variable "x" 0)
      (by decide) (by decide)⟩

/-- C5: a parameter with both a default initializer and an assigned override
takes its value — and, when no type syntax is declared, its type — from the
override evaluated against the instance scope, not from the default; a
localparam ignores any supplied override and yields its own default evaluated
against its declaring scope, regardless of `isPort`. -/
theorem parameter_override_precedence
    {Scope Expr TySyn Ty CVal : Type}
    (evalConst : Scope → Expr → CVal) (typeOf : Scope → Expr → Ty)
    (resolveType : Scope → TySyn → Ty)
    (p : ParamSym Scope Expr TySyn) (dflt ov : Expr)
    (hd : p.defaultInitializer = some dflt)
    (ha : p.assignedValue = some ov) :
    (p.isLocal = false →
      p.value evalConst = some (evalConst p.instanceScope ov) ∧
      (p.typeSyntax = none →
        p.type resolveType typeOf = some (typeOf p.instanceScope ov))) ∧
    (p.isLocal = true →
      p.value evalConst = some (evalConst p.declScope dflt)) := by
  constructor
  · intro hl
    constructor
    · simp [ParamSym.value, ParamSym.chosen, hl, ha]
    · intro ht
      simp [ParamSym.type, ParamSym.chosen, hl, ha, ht]
  · intro hl
    simp [ParamSym.value, ParamSym.chosen, hl, ha, hd]

/-- Witness for C5 mirroring the spec's example: default 4, override 7; the
plain parameter yields 7, the localparam of the same shape yields 4. -/
theorem parameter_override_precedence_witness :
    ParamSym.value (fun (_ : Nat) (e : Int) => e)
      (⟨"P", 0, false, true, (none : Option Unit), some 4, some 7, 1, 0⟩ :
        ParamSym Nat Int Unit) = some 7 ∧
    ParamSym.value (fun (_ : Nat) (e : Int) => e)
      (⟨"P", 0, true, true, (none : Option Unit), some 4, some 7, 1, 0⟩ :
        ParamSym Nat Int Unit) = some 4 :=
  ⟨((parameter_override_precedence (fun (_ : Nat) (e : Int) => e)
      (fun _ _ => ()) (fun _ (t : Unit) => t)
      ⟨"P", 0, false, true, none, some 4, some 7, 1, 0⟩ 4 7 rfl rfl).1 rfl).1,
   (parameter_override_precedence (fun (_ : Nat) (e : Int) => e)
      (fun _ _ => ()) (fun _ (t : Unit) => t)
      ⟨"P", 0, true, true, none, some 4, some 7, 1, 0⟩ 4 7 rfl rfl).2 rfl⟩

theorem loopGenerateValues_upto4 (n : Nat) :
    loopGenerateValues (fun v => .val (if v < 4 then 1 else 0))
      (fun v => .val (v + 1)) (n + 4) 0 = [0, 1, 2, 3] := by
  have hstop : ∀ m, loopGenerateValues (fun v => .val (if v < 4 then 1 else 0))
      (fun v => .val (v + 1)) m 4 = [] := by
    intro m
    cases m with
    | zero => rfl
    | succ k => simp [loopGenerateValues]
  norm_num [loopGenerateValues, hstop]

/-- C6: an if-generate whose guard is a non-zero, non-invalid constant
produces exactly one generate block wrapping the taken branch; a zero guard
with no else-branch produces zero children; and a loop-generate over the
range zero to four produces exactly four blocks, in order, with implicit loop
parameters bound to 0, 1, 2, 3. -/
theorem generate_elaboration_counts :
    (∀ (c : Int) (tb : Nat) (els : Option Nat) (nm : String), c ≠ 0 →
      ifGenerateMembers (.val c) tb els nm = [{ name := nm, body := tb }]) ∧
    (∀ (tb : Nat) (nm : String),
      ifGenerateMembers (.val 0) tb none nm = []) ∧
    (∀ (n : Nat) (body : Nat),
      loopGenerateMembers (n + 4) (.val 0)
        (fun v => .val (if v < 4 then 1 else 0))
        (fun v => .val (v + 1)) body =
      [⟨"genblk1", body, some 0⟩, ⟨"genblk2", body, some 1⟩,
       ⟨"genblk3", body, some 2⟩, ⟨"genblk4", body, some 3⟩]) := by
  refine ⟨?_, ?_, ?_⟩
  · intro c tb els nm hc
    simp [ifGenerateMembers, hc]
  · intro tb nm
    simp [ifGenerateMembers]
  · intro n body
    simp [loopGenerateMembers, loopGenerateValues_upto4]
    rfl

/-- Witness for C6 at guard 5 (one block), guard 0 (no blocks), and the
concrete loop over the range zero to four with fuel 10. -/
theorem generate_elaboration_counts_witness :
    ifGenerateMembers (.val 5) 7 none "g" = [{ name := "g", body := 7 }] ∧
    ifGenerateMembers (.val 0) 7 none "g" = [] ∧
    loopGenerateMembers 10 (.val 0) (fun v => .val (if v < 4 then 1 else 0))
      (fun v => .val (v + 1)) 9 =
      [⟨"genblk1", 9, some 0⟩, ⟨"genblk2", 9, some 1⟩,
       ⟨"genblk3", 9, some 2⟩, ⟨"genblk4", 9, some 3⟩] :=
  ⟨generate_elaboration_counts.1 5 7 none "g" (by decide),
   generate_elaboration_counts.2.1 7 "g",
   generate_elaboration_counts.2.2 6 9⟩

theorem getRootAux_of_chain (d : Design) (r : Nat)
    (huniq : ∀ j, j < d.syms.length → d.parentOf j = some j → j = r) :
    ∀ (n i fuel : Nat), d.ancestorAt n i = some r → d.parentOf r = some r →
      n + 1 ≤ fuel → getRootAux d fuel i = some r := by
  intro n
  induction n with
  | zero =>
      intro i fuel hchain hroot hfuel
      have hir : i = r := Option.some.inj hchain
      subst hir
      cases fuel with
      | zero => omega
      | succ f => simp [getRootAux, hroot]
  | succ n ih =>
      intro i fuel hchain hroot hfuel
      unfold Design.ancestorAt at hchain
      obtain ⟨p, hp, hc⟩ := Option.bind_eq_some.mp hchain
      cases fuel with
      | zero => omega
      | succ f =>
          have hgoal : getRootAux d (f + 1) i =
              if p = i then some i else getRootAux d f p := by
            show (match d.parentOf i with
                  | none => none
                  | some q => if q = i then some i else getRootAux d f q) =
                if p = i then some i else getRootAux d f p
            rw [hp]
          rw [hgoal]
          by_cases hpi : p = i
          · subst hpi
            obtain ⟨si, hsi, _⟩ := Option.bind_eq_some.mp hp
            obtain ⟨hlen, _⟩ := List.get?_eq_some.mp hsi
            have hir : p = r := huniq p hlen hp
            simp [hir]
          · rw [if_neg hpi]
            exact ih p f hc hroot (by omega)

/-- C9: when the root is the unique self-parented symbol and a symbol's
parent chain reaches it in finitely many steps, the root walk terminates with
that unique root; invoked on the root itself it returns the root itself. -/
theorem getRoot_reaches_unique_root
    (d : Design) (r i n fuel : Nat)
    (hroot : d.parentOf r = some r)
    (huniq : ∀ j, j < d.syms.length → d.parentOf j = some j → j = r)
    (hchain : d.ancestorAt n i = some r)
    (hfuel : n + 1 ≤ fuel) :
    d.getRoot fuel i = some r ∧ d.getRoot fuel r = some r := by
  constructor
  · exact getRootAux_of_chain d r huniq n i fuel hchain hroot hfuel
  · exact getRootAux_of_chain d r huniq 0 r fuel rfl hroot (by omega)

/-- Witness for C9 in the two-symbol design: from the module child (one link)
and from the root itself, the walk returns the root. -/
theorem getRoot_reaches_unique_root_witness :
    exDesign3.getRoot 2 1 = some 0 ∧ exDesign3.getRoot 2 0 = some 0 :=
  getRoot_reaches_unique_root exDesign3 0 1 1 2 (by decide) (by decide)
    (by decide) (by decide)

/-- C10: a symbol constructed through the constructor that takes no containing
symbol has a null parent back-reference: `getParent` returns none — not the
symbol itself and not a root — so parent-chain traversals such as the root
walk face a null parent as a reachable case: on a design holding only such a
symbol the root walk yields no root. -/
theorem orphan_symbol_has_null_parent (kind : SymbolKind) (name : String)
    (location : Nat) :
    (SymData.mkOrphan kind name location).getParent = none ∧
    (∀ j, (SymData.mkOrphan kind name location).getParent ≠ some j) ∧
    (∀ fuel,
      (Design.mk [SymData.mkOrphan kind name location] [] []).getRoot
        fuel 0 = none) := by
  refine ⟨rfl, fun j h => Option.noConfusion h, fun fuel => ?_⟩
  cases fuel with
  | zero => rfl
  | succ f =>
      simp [Design.getRoot, getRootAux, Design.parentOf, Design.symAt,
        SymData.mkOrphan, SymData.getParent]

/-- Witness for C10 at a concrete orphan symbol: its parent is null and the
root walk from it finds no root. -/
theorem orphan_symbol_has_null_parent_witness :
    (SymData.mkOrphan .Unknown "" 0).getParent = none ∧
    (Design.mk [SymData.mkOrphan .Unknown "" 0] [] []).getRoot 3 0 = none :=
  ⟨(orphan_symbol_has_null_parent .Unknown "" 0).1,
   (orphan_symbol_has_null_parent .Unknown "" 0).2.2 3⟩

end SlangProofs
